import Mathlib

/-!
Shallow embedding of `lightlab/equipment/lab_instruments/visa_drivers/Keithley_2400_SM.py`.

The driver is a thin stateful wrapper around a SCPI parameter interface.
We model:
  * the mutable per-instance state (`KState`): last commanded current/voltage,
    step sizes (optional = ramping disabled), protection limits;
  * the hardware/cache environment (`Env`): the value the instrument reports
    for `OUTP:STATE` on a forced read, and the cached `SOURCE:FUNC` value;
  * every operation as a pure function returning the new state together with
    the ordered list of `setConfigParam` hardware writes it issues.

Machine floats are idealized as rationals (`ℚ`); numpy's `clip`, `linspace`,
`floor` and `10 ** ceil(log10 x)` are translated exactly over `ℚ`
(`Int.clog 10` is `⌈log10 ·⌉` on rationals).
-/

namespace Keithley

/-- A configuration-parameter value: Python strings or numbers.
Python `==` across these types is `False`, matching structural equality here. -/
inductive CVal where
  | str : String → CVal
  | num : ℚ → CVal
deriving DecidableEq, Repr

/-- One hardware write issued through `setConfigParam key value`. -/
abbrev Write := String × CVal

/-- Driver instance state: `_latestCurrentVal`, `_latestVoltageVal`,
`currStep`, `voltStep` (None = no ramping), and the protection limits
(`VOLT:PROT` / `CURR:PROT` as cached by `Configurable`). -/
structure KState where
  latestCurrentVal : ℚ
  latestVoltageVal : ℚ
  currStep : Option ℚ
  voltStep : Option ℚ
  protectionVoltage : ℚ
  protectionCurrent : ℚ
deriving DecidableEq, Repr

/-- External environment: what a forced hardware read of `OUTP:STATE`
returns, and the cached `SOURCE:FUNC` value. -/
structure Env where
  outpState : CVal
  sourceFunc : CVal
deriving DecidableEq, Repr

/-- Python `retVal in ['ON', 1, '1']` from `enable`. -/
def isOn (v : CVal) : Bool :=
  v = CVal.str "ON" ∨ v = CVal.num 1 ∨ v = CVal.str "1"

/-- `np.clip(x, a_min, a_max)` = `min(a_max, max(x, a_min))`. -/
def np_clip (x lo hi : ℚ) : ℚ := min (max x lo) hi

/-- `10 ** np.ceil(np.log10(abs t))`: the range decade picked for a target. -/
def needRange (t : ℚ) : ℚ := (10 : ℚ) ^ Int.clog 10 |t|

/-- The clamp applied by `_configCurrent`: `np.clip(currAmps, 1e-6, 1.)`. -/
def clipCurr (x : ℚ) : ℚ := np_clip x (1 / 1000000) 1

/-- The writes issued by one `_configCurrent(x)` call: a `SOURCE:CURR:RANGE`
write when the clamped value is nonzero, then the `SOURCE:CURR` write. -/
def currWrites (x : ℚ) : List Write :=
  if clipCurr x = 0 then [("SOURCE:CURR", CVal.num (clipCurr x))]
  else [("SOURCE:CURR:RANGE", CVal.num (needRange (clipCurr x))),
        ("SOURCE:CURR", CVal.num (clipCurr x))]

/-- `_configCurrent(self, currAmps)`: clamp, optionally set the range,
write the source value, persist `_latestCurrentVal`.
(`time_delay` only sleeps and is dropped.) -/
def _configCurrent (s : KState) (currAmps : ℚ) : KState × List Write :=
  ({ s with latestCurrentVal := clipCurr currAmps }, currWrites currAmps)

/-- The writes issued by one `_configVoltage(v)` call (no clamp here). -/
def voltWrites (v : ℚ) : List Write :=
  if v = 0 then [("SOURCE:VOLT", CVal.num v)]
  else [("SOURCE:VOLT:RANGE", CVal.num (needRange v)),
        ("SOURCE:VOLT", CVal.num v)]

/-- `_configVoltage(self, voltVolts)`. -/
def _configVoltage (s : KState) (voltVolts : ℚ) : KState × List Write :=
  ({ s with latestVoltageVal := voltVolts }, voltWrites voltVolts)

/-- `np.linspace(a, b, num)` over `ℚ`. -/
def linspace (a b : ℚ) (num : ℕ) : List ℚ :=
  if num = 0 then []
  else if num = 1 then [a]
  else (List.range num).map (fun i : ℕ => a + (b - a) * (i : ℚ) / ((num - 1 : ℕ) : ℚ))

/-- `int(np.floor(abs(a - b) / step))` as a natural number
(nonnegative whenever `step > 0`). -/
def rampSteps (a b step : ℚ) : ℕ := (⌊|a - b| / step⌋).toNat

/-- The ramp points traversed by `setCurrent`/`setVoltage`:
`np.linspace(a, b, 1 + nSteps)[1:]`. -/
def rampPoints (a b : ℚ) (nSteps : ℕ) : List ℚ :=
  (linspace a b (1 + nSteps)).drop 1

/-- The i-th ramp point (0-based) of an n-step ramp from `a` to `b`. -/
def rampPt (a b : ℚ) (n i : ℕ) : ℚ := a + (b - a) * (i + 1 : ℕ) / n

/-- Fold a list of setpoints through `_configCurrent`, accumulating writes
in order (the loop body of `setCurrent`/`setVoltage`). -/
def configCurrentFold (pts : List ℚ) (acc : KState × List Write) :
    KState × List Write :=
  pts.foldl (fun acc c =>
    let r := _configCurrent acc.1 c
    (r.1, acc.2 ++ r.2)) acc

/-- `setCurrent(self, currAmps)`: jump directly when the output is off or
ramping is disabled, else ramp through `linspace(a, b, 1 + nSteps)[1:]`. -/
def setCurrent (env : Env) (s : KState) (currAmps : ℚ) : KState × List Write :=
  match s.currStep, isOn env.outpState with
  | none, _ => _configCurrent s currAmps
  | some _, false => _configCurrent s currAmps
  | some step, true =>
    let nSteps := rampSteps s.latestCurrentVal currAmps step
    configCurrentFold (rampPoints s.latestCurrentVal currAmps nSteps) (s, [])

/-- `setVoltage(self, voltVolts)`: the source routes BOTH branches through
`self._configCurrent(voltVolts)` (the literal code), using `voltStep` and
`_latestVoltageVal` only to compute the ramp. -/
def setVoltage (env : Env) (s : KState) (voltVolts : ℚ) : KState × List Write :=
  match s.voltStep, isOn env.outpState with
  | none, _ => _configCurrent s voltVolts
  | some _, false => _configCurrent s voltVolts
  | some step, true =>
    let nSteps := rampSteps s.latestVoltageVal voltVolts step
    configCurrentFold (rampPoints s.latestVoltageVal voltVolts nSteps) (s, [])

/-- `setPort(self, port)`: `Front ↦ FRON`, `Rear ↦ REAR`, silently does
nothing on any other value (no else branch in the source). -/
def setPort (port : String) : List Write :=
  if port = "Front" then [("ROUT:TERM", CVal.str "FRON")]
  else if port = "Rear" then [("ROUT:TERM", CVal.str "REAR")]
  else []

/-- One decimal digit, as by Python number parsing. -/
def digit? (c : Char) : Option ℕ :=
  if c.isDigit then some (c.toNat - 48) else none

/-- Value of a nonempty all-digit run, most significant first. -/
def digitsValAux : List Char → ℕ → Option ℕ
  | [], acc => some acc
  | c :: rest, acc =>
    match digit? c with
    | none => none
    | some d => digitsValAux rest (10 * acc + d)

/-- Value of a digit run; `none` when empty or containing a non-digit. -/
def digitsVal : List Char → Option ℕ
  | [] => none
  | cs => digitsValAux cs 0

/-- Split at the first character satisfying `p`: the part before it, and
(when found) the part after it. -/
def splitFirst (p : Char → Bool) : List Char → List Char × Option (List Char)
  | [] => ([], none)
  | c :: rest =>
    if p c then ([], some rest)
    else
      let r := splitFirst p rest
      (c :: r.1, r.2)

/-- Python `float` mantissa: `digits`, `digits.`, `.digits` or
`digits.digits`; a bare `.` is malformed. -/
def parseMantissa (cs : List Char) : Option ℚ :=
  match splitFirst (fun c => c = '.') cs with
  | (ip, none) => (digitsVal ip).map (fun n => (n : ℚ))
  | (ip, some fp) =>
    if ip.isEmpty && fp.isEmpty then none
    else
      match (if ip.isEmpty then some 0 else digitsVal ip),
            (if fp.isEmpty then some 0 else digitsVal fp) with
      | some a, some b => some ((a : ℚ) + (b : ℚ) / 10 ^ fp.length)
      | _, _ => none

/-- Python `float` exponent part: optional sign then digits. -/
def parseExp (cs : List Char) : Option ℤ :=
  match cs with
  | '+' :: r => (digitsVal r).map (fun n => (n : ℤ))
  | '-' :: r => (digitsVal r).map (fun n => -(n : ℤ))
  | r => (digitsVal r).map (fun n => (n : ℤ))

/-- Mantissa with optional `e`/`E` exponent. -/
def parseUnsigned (cs : List Char) : Option ℚ :=
  match splitFirst (fun c => c = 'e' || c = 'E') cs with
  | (m, none) => parseMantissa m
  | (m, some e) => do
    let mv ← parseMantissa m
    let ev ← parseExp e
    pure (mv * (10 : ℚ) ^ ev)

/-- Python `float(str)` on a plain decimal literal (optional sign,
mantissa, optional exponent); `none` models a raised `ValueError`. -/
def parseFloat (cs : List Char) : Option ℚ :=
  match cs with
  | '+' :: r => parseUnsigned r
  | '-' :: r => (parseUnsigned r).map (fun q => -q)
  | r => parseUnsigned r

/-- Python `str.split(',')`: always at least one field, no merging. -/
def splitOnComma : List Char → List (List Char)
  | [] => [[]]
  | c :: rest =>
    if c = ',' then [] :: splitOnComma rest
    else
      match splitOnComma rest with
      | [] => [[c]]
      | h :: t => (c :: h) :: t

/-- `measVoltage(self)` applied to the reply string of `MEASURE:VOLT?`:
`float(retStr.split(',')[0])`; when `v >= protectionVoltage` the warning
is printed with the power figure `v * _latestCurrentVal * 1e-3` (labeled
mW). Result: measured value and the optional warning power figure;
`none` models a parse failure. -/
def measVoltage (s : KState) (reply : List Char) : Option (ℚ × Option ℚ) :=
  match (splitOnComma reply).head? with
  | none => none
  | some f0 =>
    match parseFloat f0 with
    | none => none
    | some v =>
      some (v, if s.protectionVoltage ≤ v
               then some (v * s.latestCurrentVal * (1 / 1000)) else none)

/-- `measCurrent(self)`: `float(retStr.split(',')[1])`, warning when
`i >= protectionCurrent` with power figure `i * _latestVoltageVal * 1e-3`. -/
def measCurrent (s : KState) (reply : List Char) : Option (ℚ × Option ℚ) :=
  match (splitOnComma reply)[1]? with
  | none => none
  | some f1 =>
    match parseFloat f1 with
    | none => none
    | some i =>
      some (i, if s.protectionCurrent ≤ i
               then some (i * s.latestVoltageVal * (1 / 1000)) else none)

/-- `enable(self, newState=None)`: on explicit `False`, first zero the active
source quantity (current iff cached `SOURCE:FUNC == 'CURR'`); on any
non-`None` state write `OUTP:STATE`; always return whether the forced
hardware read of `OUTP:STATE` is in `['ON', 1, '1']`. -/
def enable (env : Env) (s : KState) (newState : Option Bool) :
    KState × List Write × Bool :=
  let p1 : KState × List Write :=
    match newState with
    | some false =>
      if env.sourceFunc = CVal.str "CURR" then setCurrent env s 0
      else setVoltage env s 0
    | _ => (s, [])
  let p2 : List Write :=
    match newState with
    | none => []
    | some b => [("OUTP:STATE", CVal.num (if b then 1 else 0))]
  (p1.1, p1.2 ++ p2, isOn env.outpState)

/-- State transformer of one `_configCurrent` call. -/
def updCurr (t : KState) (c : ℚ) : KState :=
  { t with latestCurrentVal := clipCurr c }

/-- A hardware environment reporting the output on, current-source mode. -/
def envOn : Env := ⟨CVal.str "ON", CVal.str "CURR"⟩

/-- A freshly constructed driver: zero setpoints, default `currStep = 1e-3`,
`voltStep = 0.1`, `protectionVoltage = 4`, `protectionCurrent = 200e-3`. -/
def s0 : KState :=
  ⟨0, 0, some (1 / 1000), some (1 / 10), 4, 200 / 1000⟩

/-- A driver state whose last commanded current is `3 mA`. -/
def sRamp : KState :=
  ⟨3 / 1000, 0, some (1 / 1000), some (1 / 10), 4, 200 / 1000⟩

/-- A driver state with `protectionVoltage = 1` and last commanded
current `0.5 A`, so a measured `1.5 V` trips the compliance warning. -/
def sHot : KState :=
  ⟨1 / 2, 0, some (1 / 1000), some (1 / 10), 1, 200 / 1000⟩

/-- A driver state with `protectionCurrent = 0.01` and last commanded
voltage `2 V`, so a measured `0.02 A` trips the compliance warning. -/
def sAmp : KState :=
  ⟨0, 2, some (1 / 1000), some (1 / 10), 4, 1 / 100⟩

/-! ### Basic facts about the clamp and the per-call writes -/

theorem le_clipCurr (x : ℚ) : (1 / 1000000 : ℚ) ≤ clipCurr x := by
  unfold clipCurr np_clip
  exact le_min (le_trans (le_max_right _ _) (le_refl _)) (by norm_num)

theorem clipCurr_le_one (x : ℚ) : clipCurr x ≤ 1 := min_le_right _ _

theorem clipCurr_pos (x : ℚ) : 0 < clipCurr x :=
  lt_of_lt_of_le (by norm_num) (le_clipCurr x)

theorem clipCurr_ne_zero (x : ℚ) : clipCurr x ≠ 0 :=
  ne_of_gt (clipCurr_pos x)

theorem currWrites_eq (x : ℚ) :
    currWrites x = [("SOURCE:CURR:RANGE", CVal.num (needRange (clipCurr x))),
                    ("SOURCE:CURR", CVal.num (clipCurr x))] := by
  unfold currWrites
  rw [if_neg (clipCurr_ne_zero x)]

theorem configCurrentFold_eq (pts : List ℚ) :
    ∀ (s : KState) (acc : List Write),
      configCurrentFold pts (s, acc) =
        (pts.foldl updCurr s, acc ++ (pts.map currWrites).flatten) := by
  induction pts with
  | nil => intro s acc; simp [configCurrentFold]
  | cons c rest ih =>
    intro s acc
    have h1 : configCurrentFold (c :: rest) (s, acc) =
        configCurrentFold rest (updCurr s c, acc ++ currWrites c) := rfl
    rw [h1, ih]
    simp [List.foldl_cons, updCurr]

theorem foldl_updCurr_getLast (pts : List ℚ) :
    ∀ (s : KState) (c : ℚ), pts.getLast? = some c →
      pts.foldl updCurr s = { s with latestCurrentVal := clipCurr c } := by
  induction pts with
  | nil => intro s c h; simp at h
  | cons d rest ih =>
    intro s c h
    cases rest with
    | nil =>
      simp at h
      subst h
      rfl
    | cons e es =>
      rw [List.getLast?_cons_cons] at h
      rw [List.foldl_cons, ih (updCurr s d) c h]
      rfl

theorem foldl_updCurr_voltage (pts : List ℚ) :
    ∀ s : KState, (pts.foldl updCurr s).latestVoltageVal = s.latestVoltageVal := by
  induction pts with
  | nil => intro s; rfl
  | cons c rest ih => intro s; rw [List.foldl_cons, ih]; rfl

/-! ### The ramp-point list in closed form -/

theorem rampPoints_eq (a b : ℚ) (n : ℕ) :
    rampPoints a b n = (List.range n).map (rampPt a b n) := by
  cases n with
  | zero => simp [rampPoints, linspace]
  | succ m =>
    unfold rampPoints linspace
    rw [if_neg (by omega : ¬ 1 + (m + 1) = 0), if_neg (by omega : ¬ 1 + (m + 1) = 1)]
    have hr : (1 : ℕ) + (m + 1) = (m + 1) + 1 := by omega
    rw [hr, List.range_succ_eq_map, List.map_cons, List.drop_succ_cons, List.drop_zero,
      List.map_map]
    apply List.map_congr_left
    intro i _
    show a + (b - a) * (i.succ : ℕ) / ((m + 1 + 1 - 1 : ℕ) : ℚ) = rampPt a b (m + 1) i
    have h1 : (m + 1 + 1 - 1 : ℕ) = m + 1 := by omega
    rw [h1]
    unfold rampPt
    norm_num

theorem rampSteps_pos_step_le (a b step : ℚ) (hpos : 0 < step)
    (h : 0 < rampSteps a b step) : step ≤ |a - b| := by
  unfold rampSteps at h
  have h1 : 0 < ⌊|a - b| / step⌋ := by
    by_contra hc
    push_neg at hc
    rw [Int.toNat_of_nonpos hc] at h
    exact absurd h (by norm_num)
  have h2 : (1 : ℚ) ≤ |a - b| / step := by
    have := Int.le_floor.mp h1
    exact_mod_cast this
  calc step = 1 * step := (one_mul step).symm
    _ ≤ (|a - b| / step) * step := by
        exact mul_le_mul_of_nonneg_right h2 (le_of_lt hpos)
    _ = |a - b| := div_mul_cancel₀ _ (ne_of_gt hpos)

theorem rampSteps_pos_ne (a b step : ℚ) (hpos : 0 < step)
    (h : 0 < rampSteps a b step) : a ≠ b := by
  have h1 := rampSteps_pos_step_le a b step hpos h
  have h2 : 0 < |a - b| := lt_of_lt_of_le hpos h1
  intro he
  rw [he] at h2
  simp at h2

/-- Under "output on, ramping configured", `setCurrent` is the ramp fold. -/
theorem setCurrent_ramp_unfold (env : Env) (s : KState) (b step : ℚ)
    (hon : isOn env.outpState = true) (hstep : s.currStep = some step) :
    setCurrent env s b =
      configCurrentFold
        (rampPoints s.latestCurrentVal b (rampSteps s.latestCurrentVal b step))
        (s, []) := by
  unfold setCurrent
  rw [hstep, hon]

/-! ### Shape of the write trace of the setpoint operations -/

theorem setCurrent_jump_none (env : Env) (s : KState) (x : ℚ)
    (hcs : s.currStep = none) : setCurrent env s x = _configCurrent s x := by
  unfold setCurrent
  rw [hcs]

theorem setCurrent_jump_off (env : Env) (s : KState) (x step : ℚ)
    (hcs : s.currStep = some step) (hon : isOn env.outpState = false) :
    setCurrent env s x = _configCurrent s x := by
  unfold setCurrent
  rw [hcs, hon]

theorem setVoltage_jump_none (env : Env) (s : KState) (x : ℚ)
    (hvs : s.voltStep = none) : setVoltage env s x = _configCurrent s x := by
  unfold setVoltage
  rw [hvs]

theorem setVoltage_jump_off (env : Env) (s : KState) (x step : ℚ)
    (hvs : s.voltStep = some step) (hon : isOn env.outpState = false) :
    setVoltage env s x = _configCurrent s x := by
  unfold setVoltage
  rw [hvs, hon]

theorem setVoltage_ramp_unfold (env : Env) (s : KState) (x step : ℚ)
    (hon : isOn env.outpState = true) (hvs : s.voltStep = some step) :
    setVoltage env s x =
      configCurrentFold
        (rampPoints s.latestVoltageVal x (rampSteps s.latestVoltageVal x step))
        (s, []) := by
  unfold setVoltage
  rw [hvs, hon]

theorem setCurrent_writes_shape (env : Env) (s : KState) (x : ℚ) :
    ∃ pts : List ℚ, (setCurrent env s x).2 = (pts.map currWrites).flatten := by
  cases hcs : s.currStep with
  | none =>
    exact ⟨[x], by rw [setCurrent_jump_none env s x hcs]; simp [_configCurrent]⟩
  | some step =>
    cases hon : isOn env.outpState with
    | false => exact ⟨[x], by rw [setCurrent_jump_off env s x step hcs hon]; simp [_configCurrent]⟩
    | true =>
      refine ⟨rampPoints s.latestCurrentVal x (rampSteps s.latestCurrentVal x step), ?_⟩
      rw [setCurrent_ramp_unfold env s x step hon hcs, configCurrentFold_eq]
      simp

theorem setVoltage_writes_shape (env : Env) (s : KState) (x : ℚ) :
    ∃ pts : List ℚ, (setVoltage env s x).2 = (pts.map currWrites).flatten := by
  cases hvs : s.voltStep with
  | none =>
    exact ⟨[x], by rw [setVoltage_jump_none env s x hvs]; simp [_configCurrent]⟩
  | some step =>
    cases hon : isOn env.outpState with
    | false => exact ⟨[x], by rw [setVoltage_jump_off env s x step hvs hon]; simp [_configCurrent]⟩
    | true =>
      refine ⟨rampPoints s.latestVoltageVal x (rampSteps s.latestVoltageVal x step), ?_⟩
      rw [setVoltage_ramp_unfold env s x step hon hvs, configCurrentFold_eq]
      simp

theorem mem_currWrites_key (x : ℚ) (w : Write) (h : w ∈ currWrites x) :
    w.1 = "SOURCE:CURR:RANGE" ∨ w.1 = "SOURCE:CURR" := by
  rw [currWrites_eq] at h
  simp only [List.mem_cons, List.not_mem_nil, or_false] at h
  rcases h with h | h
  · left; rw [h]
  · right; rw [h]

theorem mem_flatten_currWrites_key (pts : List ℚ) (w : Write)
    (h : w ∈ (pts.map currWrites).flatten) :
    w.1 = "SOURCE:CURR:RANGE" ∨ w.1 = "SOURCE:CURR" := by
  rw [List.mem_flatten] at h
  obtain ⟨l, hl, hw⟩ := h
  rw [List.mem_map] at hl
  obtain ⟨c, _, hc⟩ := hl
  exact mem_currWrites_key c w (hc ▸ hw)

theorem setCurrent_write_key (env : Env) (s : KState) (x : ℚ) (w : Write)
    (h : w ∈ (setCurrent env s x).2) :
    w.1 = "SOURCE:CURR:RANGE" ∨ w.1 = "SOURCE:CURR" := by
  obtain ⟨pts, hp⟩ := setCurrent_writes_shape env s x
  exact mem_flatten_currWrites_key pts w (hp ▸ h)

theorem setVoltage_write_key (env : Env) (s : KState) (x : ℚ) (w : Write)
    (h : w ∈ (setVoltage env s x).2) :
    w.1 = "SOURCE:CURR:RANGE" ∨ w.1 = "SOURCE:CURR" := by
  obtain ⟨pts, hp⟩ := setVoltage_writes_shape env s x
  exact mem_flatten_currWrites_key pts w (hp ▸ h)

theorem setVoltage_voltage_unchanged (env : Env) (s : KState) (x : ℚ) :
    (setVoltage env s x).1.latestVoltageVal = s.latestVoltageVal := by
  cases hvs : s.voltStep with
  | none => rw [setVoltage_jump_none env s x hvs]; rfl
  | some step =>
    cases hon : isOn env.outpState with
    | false => rw [setVoltage_jump_off env s x step hvs hon]; rfl
    | true =>
      rw [setVoltage_ramp_unfold env s x step hon hvs, configCurrentFold_eq]
      exact foldl_updCurr_voltage _ s

theorem flatten_currWrites_filter_volt (pts : List ℚ) :
    ((pts.map currWrites).flatten).filter
      (fun w => w.1 == "SOURCE:VOLT" || w.1 == "SOURCE:VOLT:RANGE") = [] := by
  induction pts with
  | nil => rfl
  | cons c rest ih =>
    simp only [List.map_cons, List.flatten_cons, List.filter_append, ih, List.append_nil]
    rw [currWrites_eq]
    simp [List.filter]

theorem flatten_currWrites_filter_curr (pts : List ℚ) :
    ((pts.map currWrites).flatten).filter
      (fun w => w.1 == "SOURCE:CURR:RANGE" || w.1 == "SOURCE:CURR") =
      (pts.map currWrites).flatten := by
  induction pts with
  | nil => rfl
  | cons c rest ih =>
    simp only [List.map_cons, List.flatten_cons, List.filter_append, ih]
    rw [currWrites_eq]
    simp [List.filter]

/-! ### `str.split(',')` facts -/

theorem splitOnComma_ne_nil (l : List Char) : splitOnComma l ≠ [] := by
  cases l with
  | nil => simp [splitOnComma]
  | cons c rest =>
    unfold splitOnComma
    by_cases hc : c = ','
    · simp [hc]
    · rw [if_neg hc]
      cases splitOnComma rest <;> simp

theorem splitOnComma_no_comma (l : List Char) (h : ',' ∉ l) :
    splitOnComma l = [l] := by
  induction l with
  | nil => rfl
  | cons c rest ih =>
    have hc : ¬ c = ',' := fun e => h (by rw [e]; exact List.mem_cons_self _ _)
    have hr : ',' ∉ rest := fun m => h (List.mem_cons_of_mem _ m)
    unfold splitOnComma
    rw [if_neg hc, ih hr]

theorem splitOnComma_append (l1 l2 : List Char) (h : ',' ∉ l1) :
    splitOnComma (l1 ++ ',' :: l2) = l1 :: splitOnComma l2 := by
  induction l1 with
  | nil => simp [splitOnComma]
  | cons c rest ih =>
    have hc : ¬ c = ',' := fun e => h (by rw [e]; exact List.mem_cons_self _ _)
    have hr : ',' ∉ rest := fun m => h (List.mem_cons_of_mem _ m)
    show splitOnComma (c :: (rest ++ ',' :: l2)) = (c :: rest) :: splitOnComma l2
    simp only [splitOnComma, if_neg hc, ih hr]

/-- The range decade `10 ^ ⌈log10 r⌉` is the least integer power of ten
not less than `r`, for `r > 0`. -/
theorem needRange_least (t : ℚ) (ht : t ≠ 0) :
    |t| ≤ needRange t ∧ ∀ k : ℤ, |t| ≤ (10 : ℚ) ^ k → needRange t ≤ (10 : ℚ) ^ k := by
  have hb : (1 : ℕ) < 10 := by norm_num
  have hpos : (0 : ℚ) < |t| := abs_pos.mpr ht
  have hcast : ((10 : ℕ) : ℚ) = (10 : ℚ) := by norm_num
  constructor
  · have h := Int.self_le_zpow_clog hb |t|
    rw [hcast] at h
    exact h
  · intro k hk
    rw [← hcast] at hk
    have h1 : Int.clog 10 |t| ≤ k := (Int.le_zpow_iff_clog_le hb hpos).mp hk
    have h2 : (10 : ℚ) ^ Int.clog 10 |t| ≤ (10 : ℚ) ^ k :=
      zpow_le_zpow_right₀ (by norm_num) h1
    exact h2

/-- Evaluation rule for the decade: `needRange t = 10 ^ m` whenever
`10 ^ (m - 1) < |t| ≤ 10 ^ m`. -/
theorem needRange_eq_of (t : ℚ) (m : ℤ) (ht : t ≠ 0)
    (h1 : (10 : ℚ) ^ (m - 1) < |t|) (h2 : |t| ≤ (10 : ℚ) ^ m) :
    needRange t = (10 : ℚ) ^ m := by
  have hb : (1 : ℕ) < 10 := by norm_num
  have hpos : (0 : ℚ) < |t| := abs_pos.mpr ht
  have hcast : ((10 : ℕ) : ℚ) = (10 : ℚ) := by norm_num
  have hup : Int.clog 10 |t| ≤ m := by
    refine (Int.le_zpow_iff_clog_le hb hpos).mp ?_
    rw [hcast]
    exact h2
  have hlo : m - 1 < Int.clog 10 |t| := by
    by_contra hc
    push_neg at hc
    have := (Int.le_zpow_iff_clog_le hb hpos).mpr hc
    rw [hcast] at this
    linarith
  have he : Int.clog 10 |t| = m := by omega
  unfold needRange
  rw [he]

/-! ### Claims -/

/-- C10: after every `_configCurrent` call, the persisted last-commanded
current and the value written to `SOURCE:CURR` lie in `[1e-6, 1]`, are never
zero or negative, and every `SOURCE:CURR` write is accompanied by a
`SOURCE:CURR:RANGE` write (the `currAmps != 0` guard is always taken). -/
theorem configCurrent_invariant (s : KState) (x : ℚ) :
    (1 / 1000000 : ℚ) ≤ (_configCurrent s x).1.latestCurrentVal
    ∧ (_configCurrent s x).1.latestCurrentVal ≤ 1
    ∧ (_configCurrent s x).1.latestCurrentVal ≠ 0
    ∧ 0 < (_configCurrent s x).1.latestCurrentVal
    ∧ (_configCurrent s x).2 =
        [("SOURCE:CURR:RANGE", CVal.num (needRange ((_configCurrent s x).1.latestCurrentVal))),
         ("SOURCE:CURR", CVal.num ((_configCurrent s x).1.latestCurrentVal))] := by
  refine ⟨le_clipCurr x, clipCurr_le_one x, clipCurr_ne_zero x, clipCurr_pos x, ?_⟩
  show currWrites x = _
  rw [currWrites_eq]
  rfl

/-- C9: `enable()` with no argument leaves the driver state untouched,
issues no hardware write, and returns `true` exactly when the forced
hardware read of `OUTP:STATE` is one of `ON`, `1`, `"1"`. -/
theorem enable_getter_pure (env : Env) (s : KState) :
    (enable env s none).1 = s
    ∧ (enable env s none).2.1 = []
    ∧ ((enable env s none).2.2 = true ↔
        (env.outpState = CVal.str "ON" ∨ env.outpState = CVal.num 1
          ∨ env.outpState = CVal.str "1")) := by
  refine ⟨rfl, rfl, ?_⟩
  show isOn env.outpState = true ↔ _
  unfold isOn
  simp

/-- C8 (evaluation at the failing input): `setPort` maps `Front ↦ FRON`
and `Rear ↦ REAR`, but on any other value — here `"Back"` — it issues no
write and signals no error, returning silently instead of failing with
`InvalidArgument`. -/
theorem setPort_silent_on_invalid :
    setPort "Front" = [("ROUT:TERM", CVal.str "FRON")]
    ∧ setPort "Rear" = [("ROUT:TERM", CVal.str "REAR")]
    ∧ setPort "Back" = [] := by
  refine ⟨rfl, ?_, ?_⟩ <;> simp [setPort]

/-- C3 (counterexample): requesting `-2 A` — magnitude `2`, outside
`[1e-6, 1]` — commands `1e-6 A`: the effective magnitude is the LOWER
bound (not the nearest bound `1`), and the sign is not preserved
(`np.clip` acts on the signed value). -/
theorem configCurrent_negative_request_counterexample :
    (_configCurrent s0 (-2)).1.latestCurrentVal = 1 / 1000000
    ∧ (_configCurrent s0 (-2)).1.latestCurrentVal ≠ -1
    ∧ |(_configCurrent s0 (-2)).1.latestCurrentVal| ≠ 1 := by
  have h : (_configCurrent s0 (-2)).1.latestCurrentVal = 1 / 1000000 := by
    show clipCurr (-2) = 1 / 1000000
    unfold clipCurr np_clip
    rw [max_eq_right (by norm_num), min_eq_left (by norm_num)]
  refine ⟨h, ?_, ?_⟩
  · rw [h]; norm_num
  · rw [h, abs_of_pos (by norm_num)]; norm_num

/-- C3 (amended): the clamp acts on the signed value, `clip(x, 1e-6, 1)`:
requests above `1` command exactly `1`; requests below `1e-6` — including
zero and every negative request — command exactly `1e-6`; in-range
requests are passed through. -/
theorem configCurrent_clamp_spec (s : KState) (x : ℚ) :
    ((1 : ℚ) < x → (_configCurrent s x).1.latestCurrentVal = 1)
    ∧ (x < 1 / 1000000 → (_configCurrent s x).1.latestCurrentVal = 1 / 1000000)
    ∧ (1 / 1000000 ≤ x → x ≤ 1 → (_configCurrent s x).1.latestCurrentVal = x) := by
  refine ⟨?_, ?_, ?_⟩
  · intro h
    show clipCurr x = 1
    unfold clipCurr np_clip
    rw [max_eq_left (by linarith), min_eq_right (le_of_lt h)]
  · intro h
    show clipCurr x = 1 / 1000000
    unfold clipCurr np_clip
    rw [max_eq_right (le_of_lt h), min_eq_left (by norm_num)]
  · intro h1 h2
    show clipCurr x = x
    unfold clipCurr np_clip
    rw [max_eq_left h1, min_eq_left h2]

/-- Witness for the amended C3 at the concrete requests `2` and `-2`. -/
theorem configCurrent_clamp_spec_witness :
    (_configCurrent s0 2).1.latestCurrentVal = 1
    ∧ (_configCurrent s0 (-2)).1.latestCurrentVal = 1 / 1000000 :=
  ⟨(configCurrent_clamp_spec s0 2).1 (by norm_num),
   (configCurrent_clamp_spec s0 (-2)).2.1 (by norm_num)⟩

/-- C2 (evaluation of the defect): `setVoltage` routes every branch
through `_configCurrent`, so it never writes `SOURCE:VOLT` or
`SOURCE:VOLT:RANGE` (every write it issues is a `SOURCE:CURR[:RANGE]`
write), and the persisted last-commanded voltage is never updated. -/
theorem setVoltage_never_updates_voltage (env : Env) (s : KState) (v : ℚ) :
    (setVoltage env s v).1.latestVoltageVal = s.latestVoltageVal
    ∧ (setVoltage env s v).2.filter
        (fun w => w.1 == "SOURCE:VOLT" || w.1 == "SOURCE:VOLT:RANGE") = []
    ∧ (setVoltage env s v).2.filter
        (fun w => w.1 == "SOURCE:CURR:RANGE" || w.1 == "SOURCE:CURR") =
        (setVoltage env s v).2 := by
  obtain ⟨pts, hp⟩ := setVoltage_writes_shape env s v
  refine ⟨setVoltage_voltage_unchanged env s v, ?_, ?_⟩
  · rw [hp]
    exact flatten_currWrites_filter_volt pts
  · rw [hp, flatten_currWrites_filter_curr pts]

/-- C4: for every nonzero commanded source target, the value written to
`SOURCE:VOLT:RANGE` (resp. `SOURCE:CURR:RANGE`, whose target is the
clamped current) is `10 ^ ⌈log10 |t|⌉`: an integer power of ten that is
the smallest one not less than the target's magnitude. -/
theorem range_decade_correct (s : KState) (t : ℚ) (ht : t ≠ 0) :
    (_configVoltage s t).2.head? = some ("SOURCE:VOLT:RANGE", CVal.num (needRange t))
    ∧ (_configCurrent s t).2.head? =
        some ("SOURCE:CURR:RANGE", CVal.num (needRange (clipCurr t)))
    ∧ (|t| ≤ needRange t ∧ ∀ k : ℤ, |t| ≤ (10 : ℚ) ^ k → needRange t ≤ (10 : ℚ) ^ k)
    ∧ (|clipCurr t| ≤ needRange (clipCurr t)
        ∧ ∀ k : ℤ, |clipCurr t| ≤ (10 : ℚ) ^ k → needRange (clipCurr t) ≤ (10 : ℚ) ^ k)
    ∧ (∃ m : ℤ, needRange t = (10 : ℚ) ^ m)
    ∧ (∃ m : ℤ, needRange (clipCurr t) = (10 : ℚ) ^ m) := by
  refine ⟨?_, ?_, needRange_least t ht, needRange_least _ (clipCurr_ne_zero t),
    ⟨Int.clog 10 |t|, rfl⟩, ⟨Int.clog 10 |clipCurr t|, rfl⟩⟩
  · show (voltWrites t).head? = _
    unfold voltWrites
    rw [if_neg ht]
    rfl
  · show (currWrites t).head? = _
    rw [currWrites_eq]
    rfl

/-- Witness for C4 at the concrete target `3 mA` (decade `1e-2`). -/
theorem range_decade_correct_witness :
    |(3 / 1000 : ℚ)| ≤ needRange (3 / 1000)
    ∧ needRange (3 / 1000 : ℚ) = 1 / 100 := by
  refine ⟨(range_decade_correct s0 (3 / 1000) (by norm_num)).2.2.1.1, ?_⟩
  have h : needRange (3 / 1000 : ℚ) = (10 : ℚ) ^ (-2 : ℤ) := by
    refine needRange_eq_of (3 / 1000) (-2) (by norm_num) ?_ ?_ <;>
      rw [abs_of_pos (by norm_num)] <;> norm_num
  rw [h]
  norm_num

/-- C1 (counterexample): with output on and step size `1e-3 > 0`, a ramp
from the initial `a = 0` to `b = 0.0005` has `floor(|a-b|/s) = 0` steps, so
`setCurrent` issues NO hardware write at all: the written sequence does not
end at `b`, and the persisted last-commanded current is NOT updated. -/
theorem setCurrent_small_step_counterexample :
    setCurrent envOn s0 (1 / 2000) = (s0, [])
    ∧ s0.latestCurrentVal ≠ 1 / 2000 := by
  have hn : rampSteps s0.latestCurrentVal (1 / 2000) (1 / 1000) = 0 := by
    unfold rampSteps
    show (⌊|(0 : ℚ) - 1 / 2000| / (1 / 1000)⌋).toNat = 0
    rw [zero_sub, abs_neg, abs_of_nonneg (by norm_num)]
    norm_num
  have hr : rampPoints s0.latestCurrentVal (1 / 2000)
      (rampSteps s0.latestCurrentVal (1 / 2000) (1 / 1000)) = [] := by
    rw [rampPoints_eq, hn]
    rfl
  constructor
  · rw [setCurrent_ramp_unfold envOn s0 (1 / 2000) (1 / 1000) rfl rfl, hr]
    rfl
  · show (0 : ℚ) ≠ 1 / 2000
    norm_num

/-- C1 (amended): for a ramped change (output on, step `s > 0`) from the
last commanded value `a` to target `b` with `n = floor(|a-b|/s)`:
`setCurrent` issues exactly the `n` write pairs of `_configCurrent` at the
ramp points `a + k(b-a)/n`, `k = 1..n` (each `SOURCE:CURR` value being the
CLAMP of the point); when `n ≥ 1` the persisted current becomes
`clip(b, 1e-6, 1)`, the points are equally spaced by `(b-a)/n`, monotonic,
exclude `a`, and the last point is exactly `b`; when `n = 0` nothing is
written and the state is unchanged (the target is never reached). -/
theorem setCurrent_ramp_spec (env : Env) (s : KState) (b step a : ℚ) (n : ℕ)
    (hon : isOn env.outpState = true) (hstep : s.currStep = some step)
    (hpos : 0 < step) (ha : a = s.latestCurrentVal) (hn : n = rampSteps a b step) :
    ((setCurrent env s b).2 =
        ((List.range n).map (fun i => currWrites (rampPt a b n i))).flatten)
    ∧ (0 < n → (setCurrent env s b).1 = { s with latestCurrentVal := clipCurr b })
    ∧ (n = 0 → setCurrent env s b = (s, []))
    ∧ (∀ i : ℕ, i + 1 < n → rampPt a b n (i + 1) - rampPt a b n i = (b - a) / n)
    ∧ (0 < n → rampPt a b n (n - 1) = b)
    ∧ (0 < n → ∀ i j : ℕ, i < j →
        (a < b → rampPt a b n i < rampPt a b n j)
        ∧ (b < a → rampPt a b n j < rampPt a b n i))
    ∧ (0 < n → ∀ i : ℕ, rampPt a b n i ≠ a) := by
  subst ha
  have hunf := setCurrent_ramp_unfold env s b step hon hstep
  rw [← hn] at hunf
  have hfold := configCurrentFold_eq (rampPoints s.latestCurrentVal b n) s []
  have hend : 0 < n → rampPt s.latestCurrentVal b n (n - 1) = b := by
    intro h0
    have hn0 : ((n : ℕ) : ℚ) ≠ 0 := Nat.cast_ne_zero.mpr (by omega)
    unfold rampPt
    rw [Nat.sub_add_cancel h0, mul_div_assoc, div_self hn0, mul_one]
    ring
  refine ⟨?_, ?_, ?_, ?_, hend, ?_, ?_⟩
  · rw [hunf, hfold, rampPoints_eq, List.map_map]
    rfl
  · intro h0
    obtain ⟨m, rfl⟩ : ∃ m, n = m + 1 := ⟨n - 1, by omega⟩
    have hlast : (rampPoints s.latestCurrentVal b (m + 1)).getLast? =
        some (rampPt s.latestCurrentVal b (m + 1) m) := by
      rw [rampPoints_eq, List.range_succ, List.map_append]
      exact List.getLast?_concat _
    have hst := foldl_updCurr_getLast _ s _ hlast
    have hb : rampPt s.latestCurrentVal b (m + 1) m = b := by
      have := hend h0
      simpa using this
    rw [hunf, hfold, hst, hb]
  · intro h0
    have hr : rampPoints s.latestCurrentVal b n = [] := by
      rw [rampPoints_eq, h0]
      rfl
    rw [hunf, hr]
    rfl
  · intro i hi
    have hn0 : ((n : ℕ) : ℚ) ≠ 0 := Nat.cast_ne_zero.mpr (by omega)
    unfold rampPt
    push_cast
    field_simp
    ring
  · intro h0 i j hij
    have hn0 : (0 : ℚ) < (n : ℚ) := by exact_mod_cast h0
    have hc : ((i + 1 : ℕ) : ℚ) < ((j + 1 : ℕ) : ℚ) := by
      exact_mod_cast Nat.succ_lt_succ hij
    constructor
    · intro hab
      unfold rampPt
      apply add_lt_add_left
      exact (div_lt_div_iff_of_pos_right hn0).mpr (mul_lt_mul_of_pos_left hc (sub_pos.mpr hab))
    · intro hab
      unfold rampPt
      apply add_lt_add_left
      exact (div_lt_div_iff_of_pos_right hn0).mpr (mul_lt_mul_of_neg_left hc (sub_neg.mpr hab))
  · intro h0 i
    have hab : s.latestCurrentVal ≠ b :=
      rampSteps_pos_ne _ b step hpos (by omega)
    have hn0 : ((n : ℕ) : ℚ) ≠ 0 := Nat.cast_ne_zero.mpr (by omega)
    unfold rampPt
    intro he
    have h1 : (b - s.latestCurrentVal) * ((i + 1 : ℕ) : ℚ) / (n : ℚ) = 0 := by
      linarith
    rcases div_eq_zero_iff.mp h1 with h2 | h2
    · rcases mul_eq_zero.mp h2 with h3 | h3
      · exact hab (by linarith)
      · exact absurd h3 (Nat.cast_ne_zero.mpr (by omega))
    · exact hn0 h2

/-- Witness for the amended C1: ramping `0 → 3 mA` at step `1 mA`
(3 steps) lands the persisted current exactly on the target. -/
theorem setCurrent_ramp_spec_witness :
    (setCurrent envOn s0 (3 / 1000)).1.latestCurrentVal = 3 / 1000 := by
  have h3 : rampSteps s0.latestCurrentVal (3 / 1000) (1 / 1000) = 3 := by
    unfold rampSteps
    show (⌊|(0 : ℚ) - 3 / 1000| / (1 / 1000)⌋).toNat = 3
    rw [zero_sub, abs_neg, abs_of_nonneg (by norm_num)]
    norm_num
    decide
  have h := setCurrent_ramp_spec envOn s0 (3 / 1000) (1 / 1000) s0.latestCurrentVal 3
    rfl rfl (by norm_num) rfl h3.symm
  have h2 := h.2.1 (by norm_num)
  rw [h2]
  show clipCurr (3 / 1000) = 3 / 1000
  unfold clipCurr np_clip
  rw [max_eq_left (by norm_num), min_eq_left (by norm_num)]

/-- C5: `enable(False)` in current-source mode issues the whole
current-zeroing ramp trace first and the single `OUTP:STATE 0` write
last; no write of the ramp touches `OUTP:STATE`. -/
theorem enable_false_ramp_precedes_outp (env : Env) (s : KState)
    (hfn : env.sourceFunc = CVal.str "CURR") :
    (enable env s (some false)).2.1 =
      (setCurrent env s 0).2 ++ [("OUTP:STATE", CVal.num 0)]
    ∧ ∀ w ∈ (setCurrent env s 0).2, w.1 ≠ "OUTP:STATE" := by
  constructor
  · show ((if env.sourceFunc = CVal.str "CURR"
        then setCurrent env s 0 else setVoltage env s 0).2 ++ _) = _
    rw [if_pos hfn]
    rfl
  · intro w hw
    rcases setCurrent_write_key env s 0 w hw with h | h <;> rw [h] <;> decide

/-- Witness for C5: evaluated from `3 mA`, the ramp-down writes all
precede the `OUTP:STATE 0` write. -/
theorem enable_false_ramp_precedes_outp_witness :
    (enable envOn sRamp (some false)).2.1 =
      (setCurrent envOn sRamp 0).2 ++ [("OUTP:STATE", CVal.num 0)] :=
  (enable_false_ramp_precedes_outp envOn sRamp rfl).1

/-- `float("1.5") = 3/2`. -/
theorem parseFloat_onePointFive : parseFloat ['1', '.', '5'] = some (3 / 2) := by
  simp [parseFloat, parseUnsigned, parseMantissa, splitFirst, digitsVal,
    digitsValAux, digit?, Char.isDigit]
  norm_num

/-- `float("0.02") = 1/50`. -/
theorem parseFloat_zeroPointZeroTwo : parseFloat ['0', '.', '0', '2'] = some (1 / 50) := by
  simp [parseFloat, parseUnsigned, parseMantissa, splitFirst, digitsVal,
    digitsValAux, digit?, Char.isDigit]
  norm_num

/-- C6: for a well-formed two-field reply `f1 ++ "," ++ f2` (no comma
inside a field, both fields parseable), `measVoltage` returns the parse
of the FIRST field and `measCurrent` the parse of the SECOND. -/
theorem meas_fields (s : KState) (f1 f2 : List Char) (v1 v2 : ℚ)
    (h1 : ',' ∉ f1) (h2 : ',' ∉ f2)
    (p1 : parseFloat f1 = some v1) (p2 : parseFloat f2 = some v2) :
    (measVoltage s (f1 ++ ',' :: f2)).map Prod.fst = some v1
    ∧ (measCurrent s (f1 ++ ',' :: f2)).map Prod.fst = some v2 := by
  have hs : splitOnComma (f1 ++ ',' :: f2) = [f1, f2] := by
    rw [splitOnComma_append f1 f2 h1, splitOnComma_no_comma f2 h2]
  constructor
  · unfold measVoltage
    rw [hs]
    simp [p1]
  · unfold measCurrent
    rw [hs]
    simp [p2]

/-- Witness for C6 at the fixed reply `"1.5,0.02"`:
`measVoltage = 1.5`, `measCurrent = 0.02`. -/
theorem meas_fields_witness :
    (measVoltage s0 ("1.5,0.02".data)).map Prod.fst = some (3 / 2)
    ∧ (measCurrent s0 ("1.5,0.02".data)).map Prod.fst = some (1 / 50) := by
  have he : "1.5,0.02".data = "1.5".data ++ ',' :: "0.02".data := rfl
  have h := meas_fields s0 ("1.5".data) ("0.02".data) (3 / 2) (1 / 50)
    (by decide) (by decide) parseFloat_onePointFive parseFloat_zeroPointZeroTwo
  rw [he]
  exact h

/-- Evaluation of `measVoltage` on the saturating state: warning taken,
printed power figure `1.5 * 0.5 * 1e-3`. -/
theorem measVoltage_sHot_eval :
    measVoltage sHot ("1.5,0.02".data) = some (3 / 2, some (3 / 4000)) := by
  have hs : splitOnComma ("1.5,0.02".data) = ["1.5".data, "0.02".data] := by
    have he : "1.5,0.02".data = "1.5".data ++ ',' :: "0.02".data := rfl
    rw [he, splitOnComma_append _ _ (by decide), splitOnComma_no_comma _ (by decide)]
  unfold measVoltage
  rw [hs]
  simp only [List.head?_cons, parseFloat_onePointFive]
  norm_num [sHot]

/-- Evaluation of `measCurrent` on a current-saturating state: warning
taken, printed power figure `0.02 * 2 * 1e-3`. -/
theorem measCurrent_sAmp_eval :
    measCurrent sAmp ("1.5,0.02".data) = some (1 / 50, some (1 / 25000)) := by
  have hs : splitOnComma ("1.5,0.02".data) = ["1.5".data, "0.02".data] := by
    have he : "1.5,0.02".data = "1.5".data ++ ',' :: "0.02".data := rfl
    rw [he, splitOnComma_append _ _ (by decide), splitOnComma_no_comma _ (by decide)]
  unfold measCurrent
  rw [hs]
  simp only [List.getElem?_cons_succ, List.getElem?_cons_zero, parseFloat_zeroPointZeroTwo]
  norm_num [sAmp]

/-- C7 (counterexample): warnings do fire on saturation but carry the
wrong power figure. With protection `1 V`, last current `0.5 A`, measured
`1.5 V`, `measVoltage` prints `1.5 * 0.5 * 1e-3 = 0.00075`, not the
claimed `measured x setpoint = 0.75`; symmetrically, with protection
`0.01 A`, last voltage `2 V`, measured `0.02 A`, `measCurrent` prints
`0.02 * 2 * 1e-3 = 0.00004`, not `0.04`. -/
theorem meas_power_figure_counterexample :
    measVoltage sHot ("1.5,0.02".data) = some (3 / 2, some (3 / 4000))
    ∧ (3 / 4000 : ℚ) ≠ (3 / 2) * (1 / 2)
    ∧ measCurrent sAmp ("1.5,0.02".data) = some (1 / 50, some (1 / 25000))
    ∧ (1 / 25000 : ℚ) ≠ (1 / 50) * 2 :=
  ⟨measVoltage_sHot_eval, by norm_num, measCurrent_sAmp_eval, by norm_num⟩

/-- C7 (amended): for every measurement call, compliance saturation is
not an error: whenever `measVoltage` (resp. `measCurrent`) parses a value,
it returns that value, and a warning is emitted iff the value is `>=` the
corresponding protection limit; the warning's power figure is
`value * complementary setpoint * 1e-3` (one thousandth of the claimed
product, printed with a mW label). -/
theorem meas_compliance (s : KState) (reply : List Char) :
    (∀ r : ℚ × Option ℚ, measVoltage s reply = some r →
      (r.2.isSome = true ↔ s.protectionVoltage ≤ r.1)
      ∧ (∀ p, r.2 = some p → p = r.1 * s.latestCurrentVal * (1 / 1000))
      ∧ (measVoltage s reply).map Prod.fst = some r.1)
    ∧ (∀ r : ℚ × Option ℚ, measCurrent s reply = some r →
      (r.2.isSome = true ↔ s.protectionCurrent ≤ r.1)
      ∧ (∀ p, r.2 = some p → p = r.1 * s.latestVoltageVal * (1 / 1000))
      ∧ (measCurrent s reply).map Prod.fst = some r.1) := by
  constructor
  · intro r h
    unfold measVoltage at h
    cases hh : (splitOnComma reply).head? with
    | none => rw [hh] at h; simp at h
    | some f0 =>
      rw [hh] at h
      cases hp : parseFloat f0 with
      | none =>
        simp only [hp] at h
        exact Option.noConfusion h
      | some v =>
        simp only [hp] at h
        rw [Option.some.injEq] at h
        subst h
        constructor
        · by_cases hle : s.protectionVoltage ≤ v <;> simp [hle]
        · constructor
          · intro p hp2
            by_cases hle : s.protectionVoltage ≤ v
            · rw [if_pos hle, Option.some.injEq] at hp2
              simp only []
              rw [← hp2]
            · rw [if_neg hle] at hp2
              cases hp2
          · unfold measVoltage
            rw [hh]
            simp only [hp]
            rfl
  · intro r h
    unfold measCurrent at h
    cases hh : (splitOnComma reply)[1]? with
    | none => rw [hh] at h; simp at h
    | some f1 =>
      rw [hh] at h
      cases hp : parseFloat f1 with
      | none =>
        simp only [hp] at h
        exact Option.noConfusion h
      | some i =>
        simp only [hp] at h
        rw [Option.some.injEq] at h
        subst h
        constructor
        · by_cases hle : s.protectionCurrent ≤ i <;> simp [hle]
        · constructor
          · intro p hp2
            by_cases hle : s.protectionCurrent ≤ i
            · rw [if_pos hle, Option.some.injEq] at hp2
              simp only []
              rw [← hp2]
            · rw [if_neg hle] at hp2
              cases hp2
          · unfold measCurrent
            rw [hh]
            simp only [hp]
            rfl

/-- Witness for the amended C7 on both measurement calls: in each case
the warning is present and the protection limit is indeed reached. -/
theorem meas_compliance_witness :
    ((some (3 / 4000 : ℚ)).isSome = true ↔ sHot.protectionVoltage ≤ (3 / 2 : ℚ))
    ∧ ((some (1 / 25000 : ℚ)).isSome = true ↔ sAmp.protectionCurrent ≤ (1 / 50 : ℚ)) :=
  ⟨((meas_compliance sHot ("1.5,0.02".data)).1 (3 / 2, some (3 / 4000))
      measVoltage_sHot_eval).1,
   ((meas_compliance sAmp ("1.5,0.02".data)).2 (1 / 50, some (1 / 25000))
      measCurrent_sAmp_eval).1⟩

end Keithley
